import Mathlib

/-!
# Verification of the NodeMessenger real-time broadcast server

Shallow embedding of `src/MessengerServer.js` (the full dual-protocol
variant with `users`, `rooms`, `messageHistory`, `laravelSockets`).

JavaScript `Map`s are embedded as association lists (`List (κ × α)`) with
`Map.set` modelled as replace-by-cons (`setKey`); claims proved here do not
depend on iteration order.  JavaScript `Set`s of socket ids are embedded as
duplicate-free `List Nat` with insertion-order append.  `Date.now()` and
timestamps are threaded as an explicit `now : Nat` parameter.  JSON values
arriving from clients are embedded by the `JsVal` type; `sanitizeInput`
returns `none` where the JavaScript function would throw a `TypeError`
(calling `.trim` on a non-string), and each handler's `try/catch` wrapper
is embedded as the corresponding error branch.
-/

namespace NodeMessenger

/-- Association-list lookup, modelling JavaScript `Map.get`. -/
def lookupKey [DecidableEq κ] (k : κ) : List (κ × α) → Option α
  | [] => none
  | (k', v) :: t => if k' = k then some v else lookupKey k t

/-- Remove every binding of a key, used by `setKey` and `Map.delete`. -/
def eraseKey [DecidableEq κ] (k : κ) (l : List (κ × α)) : List (κ × α) :=
  l.filter (fun p => !(decide (p.1 = k)))

/-- Association-list update, modelling JavaScript `Map.set`. -/
def setKey [DecidableEq κ] (k : κ) (v : α) (l : List (κ × α)) : List (κ × α) :=
  (k, v) :: eraseKey k l

/-- `Map.has`. -/
def hasKey [DecidableEq κ] (k : κ) (l : List (κ × α)) : Bool :=
  (lookupKey k l).isSome

/-- JavaScript `Set.add` for socket-id sets (no-op when already present,
insertion order preserved). -/
def addMem (c : Nat) (s : List Nat) : List Nat :=
  if s.contains c then s else s ++ [c]

/-- JavaScript `Set.delete` for socket-id sets. -/
def removeMem (c : Nat) (s : List Nat) : List Nat :=
  s.filter (fun x => !(decide (x = c)))

/-- A JSON value arriving in a client event payload: either a string or
some non-string value (absent field, number, object, ...). -/
inductive JsVal where
  | str (s : String)
  | other
  deriving DecidableEq

/-- JavaScript `String.prototype.trim`: strip leading and trailing
whitespace (written over the character list so that it evaluates in the
kernel). -/
def jsTrim (s : String) : String :=
  ⟨((s.data.dropWhile Char.isWhitespace).reverse.dropWhile
      Char.isWhitespace).reverse⟩

/-- JavaScript `String.prototype.toLowerCase` (ASCII, character-wise). -/
def lowercase (s : String) : String :=
  ⟨s.data.map Char.toLower⟩

/-- `sanitizeInput` (MessengerServer.js): `input.trim().substring(0, 500)`.
Calling it on a non-string throws a `TypeError` in JavaScript, embedded
here as `none`. -/
def sanitizeInput : JsVal → Option String
  | .str s => some ⟨(jsTrim s).data.take 500⟩
  | .other => none

/-- One character of the `[a-zA-Z0-9_-]` character class. -/
def isValidChar (c : Char) : Bool :=
  (('a' ≤ c && c ≤ 'z') || ('A' ≤ c && c ≤ 'Z') ||
   ('0' ≤ c && c ≤ '9') || c = '_' || c = '-')

/-- `isValidUsername`: truthy, length at most 20 and `^[a-zA-Z0-9_-]+$`. -/
def isValidUsername (u : String) : Bool :=
  decide (u ≠ "") && decide (u.length ≤ 20) && u.toList.all isValidChar

/-- `isValidRoomName`: truthy, length at most 30 and `^[a-zA-Z0-9_-]+$`. -/
def isValidRoomName (r : String) : Bool :=
  decide (r ≠ "") && decide (r.length ≤ 30) && r.toList.all isValidChar

/-- An entry of a room's message history / a broadcastable message body. -/
inductive Msg where
  /-- A system notice (`{id, type: system, content, room, timestamp}`). -/
  | system (id : String) (content : String) (room : String) (timestamp : Nat)
  /-- A chat message built by the `send_message` handler. -/
  | message (id : String) (username : String) (content : String)
      (room : String) (socketId : Nat) (userId : Option Nat) (timestamp : Nat)
  /-- A private message (`{id, from, to, content, timestamp, isPrivate,
  type: private}`), never appended to history. -/
  | priv (id : String) (fromUser : String) (toUser : String)
      (content : String) (timestamp : Nat)
  /-- Opaque JSON `data` forwarded by the Laravel bridge. -/
  | bridge (data : String)
  deriving DecidableEq

/-- `MAX_MESSAGE_HISTORY`. -/
def MAX_MESSAGE_HISTORY : Nat := 50

/-- The per-room core of `addToMessageHistory`: `history.push(message)`
followed by `history.shift()` when the length exceeds 50. -/
def pushCap (h : List Msg) (m : Msg) : List Msg :=
  let h' := h ++ [m]
  if MAX_MESSAGE_HISTORY < h'.length then h'.drop 1 else h'

/-- `addToMessageHistory(room, message)`: create the room's history entry
if absent, push, and evict the oldest entry past the 50-entry cap. -/
def addToMessageHistory (mh : List (String × List Msg)) (room : String)
    (m : Msg) : List (String × List Msg) :=
  setKey room (pushCap ((lookupKey room mh).getD []) m) mh

/-- `getMessageHistory(room)`: the stored sequence or `[]`. -/
def getMessageHistory (mh : List (String × List Msg)) (room : String) :
    List Msg :=
  (lookupKey room mh).getD []

/-- Appending a whole sequence of messages to one room's history,
starting from an empty history map. -/
def appendAll (room : String) (ms : List Msg) : List (String × List Msg) :=
  ms.foldl (fun mh m => addToMessageHistory mh room m) []

-- Basic lemmas about the map helpers.

theorem lookupKey_setKey_self [DecidableEq κ] (k : κ) (v : α)
    (l : List (κ × α)) : lookupKey k (setKey k v l) = some v := by
  simp [setKey, lookupKey]

theorem lookupKey_eraseKey [DecidableEq κ] (k k' : κ) (l : List (κ × α)) :
    lookupKey k' (eraseKey k l) = if k' = k then none else lookupKey k' l := by
  induction l with
  | nil =>
    by_cases hk : k' = k <;> simp [eraseKey, lookupKey, hk]
  | cons p t ih =>
    obtain ⟨a, b⟩ := p
    by_cases hak : a = k <;> by_cases hk : k' = k <;>
      by_cases hax : a = k' <;>
      simp_all [eraseKey, List.filter_cons, lookupKey]

theorem lookupKey_setKey [DecidableEq κ] (k k' : κ) (v : α)
    (l : List (κ × α)) :
    lookupKey k' (setKey k v l) =
      if k' = k then some v else lookupKey k' l := by
  by_cases h : k' = k
  · subst h; simp [lookupKey_setKey_self]
  · have h' : ¬k = k' := fun e => h e.symm
    simp [setKey, lookupKey, h, h', lookupKey_eraseKey]

theorem eraseKey_sublist [DecidableEq κ] (k : κ) (l : List (κ × α)) :
    List.Sublist (eraseKey k l) l :=
  List.filter_sublist l

-- Lemmas about the bounded history buffer.

theorem pushCap_length_le (h : List Msg) (m : Msg) (hle : h.length ≤ 50) :
    (pushCap h m).length ≤ 50 := by
  simp only [pushCap, MAX_MESSAGE_HISTORY]
  split
  · simp only [List.length_drop, List.length_append, List.length_singleton]
    omega
  · next hng =>
    simp only [List.length_append, List.length_singleton] at hng ⊢
    omega

theorem pushCap_eq (h : List Msg) (m : Msg) (hle : h.length ≤ 50) :
    pushCap h m = (h ++ [m]).drop (h.length + 1 - 50) := by
  simp only [pushCap, MAX_MESSAGE_HISTORY, List.length_append,
    List.length_singleton]
  split
  · next hgt =>
    congr 1
    omega
  · next hng =>
    have h0 : h.length + 1 - 50 = 0 := by omega
    rw [h0, List.drop_zero]

theorem foldl_pushCap (ms : List Msg) :
    ∀ h0 : List Msg, h0.length ≤ 50 →
      List.foldl pushCap h0 ms = (h0 ++ ms).drop (h0.length + ms.length - 50) := by
  induction ms with
  | nil =>
    intro h0 hle
    have h0' : h0.length - 50 = 0 := by omega
    simp [h0']
  | cons m t ih =>
    intro h0 hle
    have hlen : (pushCap h0 m).length ≤ 50 := pushCap_length_le h0 m hle
    rw [List.foldl_cons, ih (pushCap h0 m) hlen, pushCap_eq h0 m hle]
    have hk : h0.length + 1 - 50 ≤ (h0 ++ [m]).length := by
      simp only [List.length_append, List.length_singleton]; omega
    rw [← List.drop_append_of_le_length hk, List.drop_drop]
    have hl : h0 ++ [m] ++ t = h0 ++ m :: t := by simp
    rw [hl]
    congr 1
    simp only [List.length_drop, List.length_append, List.length_cons,
      List.length_nil]
    omega

theorem foldl_add_lookup (room : String) (ms : List Msg) :
    ∀ mh0 : List (String × List Msg),
      getMessageHistory
        (List.foldl (fun mh m => addToMessageHistory mh room m) mh0 ms) room =
      List.foldl pushCap (getMessageHistory mh0 room) ms := by
  induction ms with
  | nil => intro mh0; rfl
  | cons m t ih =>
    intro mh0
    rw [List.foldl_cons, ih, List.foldl_cons]
    congr 1
    simp [getMessageHistory, addToMessageHistory, lookupKey_setKey_self]

theorem appendAll_lookup (room : String) (ms : List Msg) :
    getMessageHistory (appendAll room ms) room = ms.drop (ms.length - 50) := by
  rw [appendAll, foldl_add_lookup]
  have h := foldl_pushCap ms [] (by simp)
  simpa [getMessageHistory, lookupKey] using h

/-- A User record stored in the `users` map by the `join` handler. -/
structure User where
  username : String
  room : String
  socketId : Nat
  userId : Option Nat
  joinedAt : Nat
  deriving DecidableEq

/-- Information carried by a bridge `room_created` control message. -/
structure RoomInfo where
  id : Nat
  slug : String
  name : String
  type : String
  collaborationId : Option Nat
  deriving DecidableEq

/-- The `new_user` field of a bridge `room_created` control message. -/
structure BridgeUser where
  id : Nat
  name : String
  deriving DecidableEq

/-- Payload of an emitted server event. -/
inductive Payload where
  | errMsg (s : String)
  | history (h : List Msg)
  | joinedInfo (room : String) (userCount : Nat)
  | msgP (m : Msg)
  | usersList (us : List User)
  | roomChangedInfo (room : String) (userCount : Nat)
  | dataP (d : Msg)
  | typingP (username : String) (isTyping : Bool)
  | roomsListP (l : List (String × Nat))
  | roomUsersP (room : String) (us : List User)
  | presenceP (userId : Nat) (status : String) (room : Option String)
  | roomCreatedP (info : RoomInfo) (newUser : BridgeUser) (timestamp : Nat)
  | pongP (timestamp : Nat)
  | laravelAck (timestamp : Nat)
  deriving DecidableEq

/-- A delivery performed by the dispatcher, in emission order. -/
inductive Output where
  /-- `socket.emit` / `io.to(socketId).emit`: unicast to one connection. -/
  | unicast (dst : Nat) (event : String) (p : Payload)
  /-- `socket.to(room).emit`: everyone in the room except the sender. -/
  | toRoomExcept (room : String) (sender : Nat) (event : String) (p : Payload)
  /-- `io.to(room).emit`: everyone in the room. -/
  | toRoomAll (room : String) (event : String) (p : Payload)
  /-- `io.emit`: everyone connected. -/
  | global (event : String) (p : Payload)
  deriving DecidableEq

/-- The shared mutable registries of MessengerServer.js, plus the set of
deferred history purges scheduled via `setTimeout` and not yet fired. -/
structure ServerState where
  users : List (Nat × User)
  rooms : List (String × List Nat)
  messageHistory : List (String × List Msg)
  laravelSockets : List Nat
  pendingPurges : List String
  deriving DecidableEq

/-- The state at server start: all registries empty. -/
def initState : ServerState := ⟨[], [], [], [], []⟩

/-- Error-message strings emitted by the handlers. -/
def invalidUsernameMsg : String :=
  "Invalid username. Use only letters, numbers, hyphens, and underscores (max 20 chars)"

def invalidRoomMsg : String :=
  "Invalid room name. Use only letters, numbers, hyphens, and underscores (max 30 chars)"

def dupUsernameMsg : String := "Username already taken. Please choose another one."

def notAuthMsg : String := "User not authenticated"

def emptyMsgMsg : String := "Message cannot be empty"

def emptyPrivateMsg : String := "Private message cannot be empty"

def targetNotFoundMsg : String := "User not found or offline"

def sendFailedMsg : String := "Failed to send message"

def sendPrivateFailedMsg : String := "Failed to send private message"

/-- An `error` event unicast to the triggering connection. -/
def errOut (c : Nat) (s : String) : Output :=
  Output.unicast c "error" (Payload.errMsg s)

/-- Case-insensitive username search over `users.values()`, as in the
duplicate check of `join` and the target lookup of `send_private_message`. -/
def findUserByName (users : List (Nat × User)) (name : String) :
    Option User :=
  (users.map (fun p => p.2)).find?
    (fun u => lowercase u.username == lowercase name)

/-- The `join` event handler (`socket.on('join')`).  `c` is `socket.id`,
`now` the current time used for ids/timestamps. -/
def joinHandler (st : ServerState) (c : Nat) (now : Nat) (username : String)
    (room : String) (userId : Option Nat) : ServerState × List Output :=
  if st.laravelSockets.contains c then (st, [])
  else if !isValidUsername username then (st, [errOut c invalidUsernameMsg])
  else if !isValidRoomName room then (st, [errOut c invalidRoomMsg])
  else match findUserByName st.users username with
  | some _ => (st, [errOut c dupUsernameMsg])
  | none =>
    let user : User := ⟨username, room, c, userId, now⟩
    let users' := setKey c user st.users
    let rooms' := if hasKey room st.rooms then st.rooms
                  else setKey room [] st.rooms
    let mem := (lookupKey room rooms').getD []
    let rooms'' := setKey room (addMem c mem) rooms'
    let history := getMessageHistory st.messageHistory room
    let joinMsg := Msg.system ("system_" ++ toString now)
      (username ++ " joined the room") room now
    let mh' := addToMessageHistory st.messageHistory room joinMsg
    let roomUsers := ((lookupKey room rooms'').getD []).filterMap
      (fun i => lookupKey i users')
    ({ st with users := users', rooms := rooms'', messageHistory := mh' },
     [Output.unicast c "message_history" (Payload.history history),
      Output.unicast c "joined" (Payload.joinedInfo room (addMem c mem).length),
      Output.toRoomExcept room c "user_joined" (Payload.msgP joinMsg),
      Output.toRoomAll room "users_update" (Payload.usersList roomUsers)])

/-- The `send_message` event handler.  A payload whose `content` is not a
string makes `sanitizeInput` throw; the handler's catch block emits the
generic failure error. -/
def sendMessageHandler (st : ServerState) (c : Nat) (now : Nat)
    (content : JsVal) : ServerState × List Output :=
  if st.laravelSockets.contains c then (st, [])
  else match lookupKey c st.users with
  | none => (st, [errOut c notAuthMsg])
  | some user =>
    match sanitizeInput content with
    | none => (st, [errOut c sendFailedMsg])
    | some s =>
      if s = "" then (st, [errOut c emptyMsgMsg])
      else
        let m := Msg.message ("msg_" ++ toString now ++ "_" ++ toString c)
          user.username s user.room c user.userId now
        ({ st with
            messageHistory := addToMessageHistory st.messageHistory user.room m },
         [Output.toRoomAll user.room "receive_message" (Payload.msgP m)])

/-- The `send_private_message` event handler. -/
def sendPrivateMessageHandler (st : ServerState) (c : Nat) (now : Nat)
    (targetUsername : String) (content : JsVal) : ServerState × List Output :=
  if st.laravelSockets.contains c then (st, [])
  else match lookupKey c st.users with
  | none => (st, [errOut c notAuthMsg])
  | some sender =>
    match sanitizeInput content with
    | none => (st, [errOut c sendPrivateFailedMsg])
    | some s =>
      if s = "" then (st, [errOut c emptyPrivateMsg])
      else match findUserByName st.users targetUsername with
      | some target =>
        let pm := Msg.priv ("pm_" ++ toString now ++ "_" ++ toString c)
          sender.username targetUsername s now
        (st, [Output.unicast target.socketId "receive_private_message"
                (Payload.msgP pm),
              Output.unicast c "private_message_sent" (Payload.msgP pm)])
      | none => (st, [errOut c targetNotFoundMsg])

/-- The `typing` / `stop_typing` event handlers. -/
def typingHandler (st : ServerState) (c : Nat) (isTyping : Bool) :
    ServerState × List Output :=
  if st.laravelSockets.contains c then (st, [])
  else match lookupKey c st.users with
  | none => (st, [])
  | some user =>
    (st, [Output.toRoomExcept user.room c "user_typing"
            (Payload.typingP user.username isTyping)])

/-- Leaving a room on `change_room` / `disconnect`: remove the member,
delete the entry when it becomes empty and schedule a deferred history
purge for that room. -/
def leaveRoom (rooms : List (String × List Nat)) (pending : List String)
    (room : String) (c : Nat) : List (String × List Nat) × List String :=
  match lookupKey room rooms with
  | none => (rooms, pending)
  | some ms =>
    let ms' := removeMem c ms
    if ms'.length = 0 then (eraseKey room rooms, pending ++ [room])
    else (setKey room ms' rooms, pending)

/-- The `change_room` event handler. -/
def changeRoomHandler (st : ServerState) (c : Nat) (now : Nat)
    (newRoom : String) : ServerState × List Output :=
  if st.laravelSockets.contains c then (st, [])
  else match lookupKey c st.users with
  | none => (st, [errOut c notAuthMsg])
  | some user =>
    if !isValidRoomName newRoom then (st, [errOut c invalidRoomMsg])
    else
      let oldRoom := user.room
      let rp := leaveRoom st.rooms st.pendingPurges oldRoom c
      let users' := setKey c { user with room := newRoom } st.users
      let memNew := (lookupKey newRoom rp.1).getD []
      let rooms₂ := setKey newRoom (addMem c memNew) rp.1
      let history := getMessageHistory st.messageHistory newRoom
      let leftMsg := Msg.system ("system_" ++ toString now)
        (user.username ++ " left the room") oldRoom now
      let mh₁ := addToMessageHistory st.messageHistory oldRoom leftMsg
      let oldRoomUsers := ((lookupKey oldRoom rooms₂).getD []).filterMap
        (fun i => lookupKey i users')
      let joinedMsg := Msg.system ("system_" ++ toString now)
        (user.username ++ " joined the room") newRoom now
      let mh₂ := addToMessageHistory mh₁ newRoom joinedMsg
      let newRoomUsers := ((lookupKey newRoom rooms₂).getD []).filterMap
        (fun i => lookupKey i users')
      ({ st with users := users', rooms := rooms₂, messageHistory := mh₂,
                 pendingPurges := rp.2 },
       [Output.unicast c "message_history" (Payload.history history),
        Output.toRoomExcept oldRoom c "user_left" (Payload.msgP leftMsg),
        Output.toRoomAll oldRoom "users_update" (Payload.usersList oldRoomUsers),
        Output.toRoomExcept newRoom c "user_joined" (Payload.msgP joinedMsg),
        Output.toRoomAll newRoom "users_update" (Payload.usersList newRoomUsers),
        Output.unicast c "room_changed"
          (Payload.roomChangedInfo newRoom
            ((lookupKey newRoom rooms₂).getD []).length)])

/-- The `get_rooms` event handler (read-only snapshot). -/
def getRoomsHandler (st : ServerState) (c : Nat) : ServerState × List Output :=
  if st.laravelSockets.contains c then (st, [])
  else
    (st, [Output.unicast c "rooms_list"
            (Payload.roomsListP (st.rooms.map (fun p => (p.1, p.2.length))))])

/-- The `get_room_users` event handler (read-only snapshot). -/
def getRoomUsersHandler (st : ServerState) (c : Nat) (room : String) :
    ServerState × List Output :=
  if st.laravelSockets.contains c then (st, [])
  else
    (st, [Output.unicast c "room_users"
            (Payload.roomUsersP room
              (((lookupKey room st.rooms).getD []).filterMap
                (fun i => lookupKey i st.users)))])

/-- The `disconnect` handler. -/
def disconnectHandler (st : ServerState) (c : Nat) (now : Nat) :
    ServerState × List Output :=
  if st.laravelSockets.contains c then
    ({ st with laravelSockets := removeMem c st.laravelSockets }, [])
  else match lookupKey c st.users with
  | none => (st, [])
  | some user =>
    let room := user.room
    let rp := leaveRoom st.rooms st.pendingPurges room c
    let users' := eraseKey c st.users
    let leftMsg := Msg.system ("system_" ++ toString now)
      (user.username ++ " left the room") room now
    let mh' := addToMessageHistory st.messageHistory room leftMsg
    let roomUsers := ((lookupKey room rp.1).getD []).filterMap
      (fun i => lookupKey i users')
    ({ st with users := users', rooms := rp.1, messageHistory := mh',
               pendingPurges := rp.2 },
     [Output.toRoomExcept room c "user_left" (Payload.msgP leftMsg),
      Output.toRoomAll room "users_update" (Payload.usersList roomUsers)])

/-- A parsed bridge control message (`processLaravelMessage` dispatches on
its `type` field; JSON decoding itself mutates no registry, a parse
failure is logged and discarded). -/
inductive ControlMsg where
  | emit (event : String) (data : Msg)
  | emitToRoom (room : String) (event : String) (data : Msg)
  | roomCreated (info : RoomInfo) (newUser : BridgeUser)
  | presenceUpdate (userId : Nat) (status : String) (room : Option String)
  | ping
  | heartbeat
  | disconnectReq
  | unknown (t : String)
  deriving DecidableEq

/-- `handleLaravelEmit`: global fan-out. -/
def handleLaravelEmit (st : ServerState) (event : String) (data : Msg) :
    ServerState × List Output :=
  (st, [Output.global event (Payload.dataP data)])

/-- `handleLaravelRoomEmit`: ensure room tracking exists, fan out to the
room, and append to the history buffer when the event is the canonical
`receive_message` kind. -/
def handleLaravelRoomEmit (st : ServerState) (room : String) (event : String)
    (data : Msg) : ServerState × List Output :=
  let rooms' := if hasKey room st.rooms then st.rooms
                else setKey room [] st.rooms
  let mh' := if event = "receive_message"
             then addToMessageHistory st.messageHistory room data
             else st.messageHistory
  ({ st with rooms := rooms', messageHistory := mh' },
   [Output.toRoomAll room event (Payload.dataP data)])

/-- `handleLaravelRoomCreation`: ensure room tracking exists for the slug;
broadcast globally only for `collaboration` rooms (`direct` is log-only). -/
def handleLaravelRoomCreation (st : ServerState) (now : Nat) (info : RoomInfo)
    (newUser : BridgeUser) : ServerState × List Output :=
  let rooms' := if hasKey info.slug st.rooms then st.rooms
                else setKey info.slug [] st.rooms
  let outs := if info.type = "collaboration"
              then [Output.global "collaboration_room_created"
                      (Payload.roomCreatedP info newUser now)]
              else []
  ({ st with rooms := rooms' }, outs)

/-- `handleLaravelPresenceUpdate`. -/
def handleLaravelPresenceUpdate (st : ServerState) (userId : Nat)
    (status : String) (room : Option String) : ServerState × List Output :=
  match room with
  | some r => (st, [Output.toRoomAll r "user_presence_changed"
                      (Payload.presenceP userId status (some r))])
  | none => (st, [Output.global "user_presence_changed"
                    (Payload.presenceP userId status none)])

/-- `processLaravelMessage`: dispatch a parsed bridge control message. -/
def processLaravelMessage (st : ServerState) (c : Nat) (now : Nat)
    (m : ControlMsg) : ServerState × List Output :=
  match m with
  | .emit event data => handleLaravelEmit st event data
  | .emitToRoom room event data => handleLaravelRoomEmit st room event data
  | .roomCreated info newUser => handleLaravelRoomCreation st now info newUser
  | .presenceUpdate userId status room =>
      handleLaravelPresenceUpdate st userId status room
  | .ping => (st, [Output.unicast c "pong" (Payload.pongP now)])
  | .heartbeat => (st, [])
  | .disconnectReq => (st, [])
  | .unknown _ => (st, [])

/-- One externally triggered operation on the server state. -/
inductive Op where
  | join (c : Nat) (now : Nat) (username : String) (room : String)
      (userId : Option Nat)
  | sendMessage (c : Nat) (now : Nat) (content : JsVal)
  | sendPrivate (c : Nat) (now : Nat) (target : String) (content : JsVal)
  | typing (c : Nat) (isTyping : Bool)
  | changeRoom (c : Nat) (now : Nat) (newRoom : String)
  | getRooms (c : Nat)
  | getRoomUsers (c : Nat) (room : String)
  | disconnect (c : Nat) (now : Nat)
  /-- A raw first-frame sentinel `LARAVEL_CLIENT` classifying `c` as a
  bridge connection (`laravelSockets.add`, acknowledgment emitted). -/
  | classifyLaravel (c : Nat) (now : Nat)
  /-- A complete newline-delimited line from a bridge connection, already
  parsed into a control message. -/
  | bridgeMsg (c : Nat) (now : Nat) (m : ControlMsg)
  /-- A scheduled deferred history purge firing. -/
  | firePurge (room : String)
  deriving DecidableEq

/-- Whether the operation arrives over the privileged bridge path. -/
def Op.isBridgeOp : Op → Bool
  | .classifyLaravel _ _ => true
  | .bridgeMsg .. => true
  | _ => false

/-- One step of the server: dispatch an operation to its handler. -/
def stepOp (st : ServerState) : Op → ServerState × List Output
  | .join c now username room userId =>
      joinHandler st c now username room userId
  | .sendMessage c now content => sendMessageHandler st c now content
  | .sendPrivate c now target content =>
      sendPrivateMessageHandler st c now target content
  | .typing c isTyping => typingHandler st c isTyping
  | .changeRoom c now newRoom => changeRoomHandler st c now newRoom
  | .getRooms c => getRoomsHandler st c
  | .getRoomUsers c room => getRoomUsersHandler st c room
  | .disconnect c now => disconnectHandler st c now
  | .classifyLaravel c now =>
      ({ st with laravelSockets := addMem c st.laravelSockets },
       [Output.unicast c "laravel_connected" (Payload.laravelAck now)])
  | .bridgeMsg c now m =>
      if st.laravelSockets.contains c then processLaravelMessage st c now m
      else (st, [])
  | .firePurge room =>
      if st.pendingPurges.contains room then
        let st₁ := { st with pendingPurges := st.pendingPurges.erase room }
        if hasKey room st.rooms then (st₁, [])
        else ({ st₁ with messageHistory := eraseKey room st.messageHistory }, [])
      else (st, [])

/-- The state after an operation, outputs discarded. -/
def execOp (st : ServerState) (op : Op) : ServerState := (stepOp st op).1

/-- The state reached from server start by a sequence of operations. -/
def execOps (ops : List Op) : ServerState := ops.foldl execOp initState

/-- Per-connection demultiplexer state of the raw-data listener
(`socket.conn.on('data')`): the classification flag and the
partial-line buffer. -/
structure ConnState where
  isLaravelClient : Bool
  dataBuffer : String
  deriving DecidableEq

/-- A fresh connection: unclassified, empty buffer. -/
def connInit : ConnState := ⟨false, ""⟩

/-- Result of processing one raw frame: the new connection state, whether
the `laravel_connected` acknowledgment was emitted, and the complete lines
handed to `processLaravelMessage`. -/
structure RawResult where
  conn : ConnState
  ackSent : Bool
  lines : List String
  deriving DecidableEq

/-- The raw-data listener: trim the frame; a frame equal to the sentinel
`LARAVEL_CLIENT` classifies the connection as bridge and is acknowledged;
frames on a bridge connection are buffered and split on newlines; frames
on any other connection are ignored by this listener. -/
def onRawData (cs : ConnState) (data : String) : RawResult :=
  let message := jsTrim data
  if message = "LARAVEL_CLIENT" then
    ⟨{ cs with isLaravelClient := true }, true, []⟩
  else if cs.isLaravelClient then
    let buf := cs.dataBuffer ++ message
    let parts := buf.splitOn "\n"
    let newBuf := parts.getLast?.getD ""
    ⟨{ cs with dataBuffer := newBuf }, false,
     parts.dropLast.filter (fun m => !(decide (jsTrim m = "")))⟩
  else ⟨cs, false, []⟩

/-- Fold the raw-data listener over a sequence of frames. -/
def processFrames (cs : ConnState) (frames : List String) : ConnState :=
  frames.foldl (fun c f => (onRawData c f).conn) cs

/-- A concrete state with one joined regular user, used by witnesses. -/
def stExample : ServerState :=
  { users := [(1, ⟨"Alice", "general", 1, none, 0⟩)],
    rooms := [("general", [1])],
    messageHistory := [],
    laravelSockets := [],
    pendingPurges := [] }

/-- The History-Buffer capacity invariant: every room's stored history
has at most 50 entries. -/
abbrev HistBounded (st : ServerState) : Prop :=
  ∀ r, (getMessageHistory st.messageHistory r).length ≤ 50

theorem histBounded_add (mh : List (String × List Msg)) (room : String)
    (m : Msg) (h : ∀ r, (getMessageHistory mh r).length ≤ 50) :
    ∀ r, (getMessageHistory (addToMessageHistory mh room m) r).length ≤ 50 := by
  intro r
  unfold addToMessageHistory getMessageHistory
  rw [lookupKey_setKey]
  by_cases hr : r = room
  · rw [if_pos hr, Option.getD_some]
    exact pushCap_length_le _ _ (h room)
  · rw [if_neg hr]
    exact h r

theorem histBounded_step (st : ServerState) (op : Op) (h : HistBounded st) :
    HistBounded (execOp st op) := by
  cases op with
  | join c now username room userId =>
    simp only [execOp, stepOp, joinHandler]
    split
    · exact h
    split
    · exact h
    split
    · exact h
    split
    · exact h
    · exact histBounded_add _ _ _ h
  | sendMessage c now content =>
    simp only [execOp, stepOp, sendMessageHandler]
    split
    · exact h
    split
    · exact h
    · split
      · exact h
      split
      · exact h
      · exact histBounded_add _ _ _ h
  | sendPrivate c now target content =>
    simp only [execOp, stepOp, sendPrivateMessageHandler]
    split
    · exact h
    split
    · exact h
    · split
      · exact h
      split
      · exact h
      split
      · exact h
      · exact h
  | typing c isTyping =>
    simp only [execOp, stepOp, typingHandler]
    split
    · exact h
    split
    · exact h
    · exact h
  | changeRoom c now newRoom =>
    simp only [execOp, stepOp, changeRoomHandler]
    split
    · exact h
    split
    · exact h
    · split
      · exact h
      · exact histBounded_add _ _ _ (histBounded_add _ _ _ h)
  | getRooms c =>
    simp only [execOp, stepOp, getRoomsHandler]
    split
    · exact h
    · exact h
  | getRoomUsers c room =>
    simp only [execOp, stepOp, getRoomUsersHandler]
    split
    · exact h
    · exact h
  | disconnect c now =>
    simp only [execOp, stepOp, disconnectHandler]
    split
    · exact h
    split
    · exact h
    · exact histBounded_add _ _ _ h
  | classifyLaravel c now =>
    exact h
  | bridgeMsg c now m =>
    simp only [execOp, stepOp]
    split
    · cases m with
      | emit event data => exact h
      | emitToRoom room event data =>
        simp only [processLaravelMessage, handleLaravelRoomEmit]
        intro r
        dsimp only
        split
        · exact histBounded_add _ _ _ h r
        · exact h r
      | roomCreated info newUser => exact h
      | presenceUpdate userId status room => cases room <;> exact h
      | ping => exact h
      | heartbeat => exact h
      | disconnectReq => exact h
      | unknown t => exact h
    · exact h
  | firePurge room =>
    simp only [execOp, stepOp]
    split
    · split
      · exact h
      · intro r
        show ((lookupKey r (eraseKey room st.messageHistory)).getD []).length ≤ 50
        rw [lookupKey_eraseKey]
        by_cases hr : r = room
        · rw [if_pos hr]
          simp
        · rw [if_neg hr]
          exact h r
    · exact h

/-- **C4** (confirmed).  For every room, the history buffer produced by
`addToMessageHistory` never exceeds 50 entries — in particular every
room's history is at most 50 entries long at every reachable server state
— and after a sequence of exactly 51 appends to the same room the buffer
equals the appended sequence minus its first entry (pure FIFO eviction),
so the 1st appended entry is absent (when it does not reoccur later in
the sequence) and the 51st appended entry is present. -/
theorem c4_history_capacity_fifo (room : String) (ms : List Msg) :
    (∀ (ops : List Op) (r : String),
      (getMessageHistory (execOps ops).messageHistory r).length ≤ 50) ∧
    (getMessageHistory (appendAll room ms) room).length ≤ 50 ∧
    (ms.length = 51 → getMessageHistory (appendAll room ms) room = ms.drop 1) ∧
    (ms.length = 51 → ∀ m0, ms.head? = some m0 → m0 ∉ ms.tail →
      m0 ∉ getMessageHistory (appendAll room ms) room) ∧
    (ms.length = 51 → ∀ mN, ms.getLast? = some mN →
      mN ∈ getMessageHistory (appendAll room ms) room) := by
  have hfold := appendAll_lookup room ms
  refine ⟨?_, ?_, ?_, ?_, ?_⟩
  · intro ops r
    have main : ∀ (l : List Op) (st : ServerState),
        HistBounded st → HistBounded (l.foldl execOp st) := by
      intro l
      induction l with
      | nil => intro st hst; exact hst
      | cons op t ih =>
        intro st hst
        rw [List.foldl_cons]
        exact ih _ (histBounded_step st op hst)
    exact main ops initState
      (by intro r'; simp [initState, getMessageHistory, lookupKey]) r
  · rw [hfold]
    simp only [List.length_drop]
    omega
  · intro h51
    rw [hfold, h51]
  · intro h51 m0 _ hnm
    rw [hfold, h51]
    norm_num
    exact hnm
  · intro h51 mN hlast
    rw [hfold, h51]
    norm_num
    cases ms with
    | nil => simp at h51
    | cons a t =>
      cases t with
      | nil => simp at h51
      | cons b t' =>
        rw [List.getLast?_cons_cons] at hlast
        have hmem : mN ∈ (b :: t').getLast? := by
          rw [hlast]; rfl
        obtain ⟨hne, heq⟩ := List.mem_getLast?_eq_getLast hmem
        have hmem' : mN ∈ b :: t' := heq ▸ List.getLast_mem hne
        simpa [List.tail] using hmem'

/-- Witness for C4 at a concrete sequence of 51 pairwise distinct
system messages. -/
theorem c4_history_capacity_fifo_witness :
    (getMessageHistory
      (appendAll "general"
        ((List.range 51).map (fun i => Msg.system "s" "c" "r" i)))
      "general").length ≤ 50 ∧
    Msg.system "s" "c" "r" 0 ∉
      getMessageHistory
        (appendAll "general"
          ((List.range 51).map (fun i => Msg.system "s" "c" "r" i)))
        "general" ∧
    Msg.system "s" "c" "r" 50 ∈
      getMessageHistory
        (appendAll "general"
          ((List.range 51).map (fun i => Msg.system "s" "c" "r" i)))
        "general" :=
  ⟨(c4_history_capacity_fifo "general"
      ((List.range 51).map (fun i => Msg.system "s" "c" "r" i))).2.1,
   (c4_history_capacity_fifo "general"
      ((List.range 51).map (fun i => Msg.system "s" "c" "r" i))).2.2.2.1
      (by decide) (Msg.system "s" "c" "r" 0) (by decide) (by decide),
   (c4_history_capacity_fifo "general"
      ((List.range 51).map (fun i => Msg.system "s" "c" "r" i))).2.2.2.2
      (by decide) (Msg.system "s" "c" "r" 50) (by decide)⟩

theorem not_mem_of_contains_false {c : Nat} {l : List Nat}
    (h : l.contains c = false) : c ∉ l := by
  simpa using h

/-- **C7** (confirmed).  On a regular (non-bridge) connection that has no
User record (no successful `join` yet), `send_message` produces exactly
one delivery — a `User not authenticated` error unicast to the sender —
and leaves the entire server state unchanged (no broadcast, no registry
or history mutation).  Bridge-classified connections are routed away from
the regular handlers by the demultiplexer guard. -/
theorem c7_send_message_requires_join (st : ServerState) (c now : Nat)
    (content : JsVal)
    (hl : st.laravelSockets.contains c = false)
    (hu : lookupKey c st.users = none) :
    sendMessageHandler st c now content =
      (st, [Output.unicast c "error" (Payload.errMsg notAuthMsg)]) := by
  simp [sendMessageHandler, hl, hu, errOut, not_mem_of_contains_false hl]

/-- Witness for C7: a fresh server, connection 1 sends a message before
joining. -/
theorem c7_send_message_requires_join_witness :
    sendMessageHandler initState 1 0 (JsVal.str "hi") =
      (initState, [Output.unicast 1 "error" (Payload.errMsg notAuthMsg)]) :=
  c7_send_message_requires_join initState 1 0 (JsVal.str "hi") rfl rfl

/-- **C10** (confirmed).  On a joined regular connection, a `send_message`
whose `content` is not a string does not crash the server: `sanitizeInput`
throws, the handler's catch unicasts the generic `Failed to send message`
error to the sender only, and no broadcast, registry or history change
occurs. -/
theorem c10_nonstring_content_caught (st : ServerState) (c now : Nat)
    (content : JsVal) (u : User)
    (hl : st.laravelSockets.contains c = false)
    (hu : lookupKey c st.users = some u)
    (hc : sanitizeInput content = none) :
    sendMessageHandler st c now content =
      (st, [Output.unicast c "error" (Payload.errMsg sendFailedMsg)]) := by
  simp [sendMessageHandler, hl, hu, hc, errOut, not_mem_of_contains_false hl]

/-- Witness for C10: Alice (joined) sends a payload with a non-string
`content` field. -/
theorem c10_nonstring_content_caught_witness :
    sendMessageHandler stExample 1 3 JsVal.other =
      (stExample, [Output.unicast 1 "error" (Payload.errMsg sendFailedMsg)]) :=
  c10_nonstring_content_caught stExample 1 3 JsVal.other
    ⟨"Alice", "general", 1, none, 0⟩ rfl rfl rfl

/-- **C8** (confirmed).  Every validation failure of the regular-client
handlers — malformed username or room name or duplicate username on
`join`, empty-after-sanitize content on `send_message` and
`send_private_message`, missing target user on `send_private_message`,
and malformed room name on `change_room` — leaves the server state
(users, rooms, histories, purge schedule) exactly unchanged and produces
exactly one delivery: an `error` event unicast to the triggering
connection. -/
theorem c8_validation_failures_pure (st : ServerState) (c now : Nat)
    (hl : st.laravelSockets.contains c = false) :
    (∀ (name room : String) (uid : Option Nat),
      isValidUsername name = false →
      joinHandler st c now name room uid = (st, [errOut c invalidUsernameMsg])) ∧
    (∀ (name room : String) (uid : Option Nat),
      isValidUsername name = true → isValidRoomName room = false →
      joinHandler st c now name room uid = (st, [errOut c invalidRoomMsg])) ∧
    (∀ (name room : String) (uid : Option Nat) (u : User),
      isValidUsername name = true → isValidRoomName room = true →
      findUserByName st.users name = some u →
      joinHandler st c now name room uid = (st, [errOut c dupUsernameMsg])) ∧
    (∀ (content : JsVal) (u : User),
      lookupKey c st.users = some u →
      sanitizeInput content = some "" →
      sendMessageHandler st c now content = (st, [errOut c emptyMsgMsg])) ∧
    (∀ (target : String) (content : JsVal) (u : User),
      lookupKey c st.users = some u →
      sanitizeInput content = some "" →
      sendPrivateMessageHandler st c now target content =
        (st, [errOut c emptyPrivateMsg])) ∧
    (∀ (target : String) (content : JsVal) (s : String) (u : User),
      lookupKey c st.users = some u →
      sanitizeInput content = some s → s ≠ "" →
      findUserByName st.users target = none →
      sendPrivateMessageHandler st c now target content =
        (st, [errOut c targetNotFoundMsg])) ∧
    (∀ (newRoom : String) (u : User),
      lookupKey c st.users = some u →
      isValidRoomName newRoom = false →
      changeRoomHandler st c now newRoom = (st, [errOut c invalidRoomMsg])) := by
  have hl' : c ∉ st.laravelSockets := not_mem_of_contains_false hl
  refine ⟨?_, ?_, ?_, ?_, ?_, ?_, ?_⟩
  · intro name room uid h1
    simp [joinHandler, hl', h1]
  · intro name room uid h1 h2
    simp [joinHandler, hl', h1, h2]
  · intro name room uid u h1 h2 h3
    simp [joinHandler, hl', h1, h2, h3]
  · intro content u h1 h2
    simp [sendMessageHandler, hl', h1, h2]
  · intro target content u h1 h2
    simp [sendPrivateMessageHandler, hl', h1, h2]
  · intro target content s u h1 h2 h3 h4
    simp [sendPrivateMessageHandler, hl', h1, h2, h3, h4]
  · intro newRoom u h1 h2
    simp [changeRoomHandler, hl', h1, h2]

/-- Witness for C8, exercising all seven failure shapes at concrete
inputs (including the spec scenario username `ab cd`). -/
theorem c8_validation_failures_pure_witness :
    joinHandler stExample 2 0 "ab cd" "general" none =
      (stExample, [errOut 2 invalidUsernameMsg]) ∧
    joinHandler stExample 2 0 "bob" "bad room" none =
      (stExample, [errOut 2 invalidRoomMsg]) ∧
    joinHandler stExample 2 0 "ALICE" "general" none =
      (stExample, [errOut 2 dupUsernameMsg]) ∧
    sendMessageHandler stExample 1 0 (JsVal.str "   ") =
      (stExample, [errOut 1 emptyMsgMsg]) ∧
    sendPrivateMessageHandler stExample 1 0 "Bob" (JsVal.str "") =
      (stExample, [errOut 1 emptyPrivateMsg]) ∧
    sendPrivateMessageHandler stExample 1 0 "Bob" (JsVal.str "hey") =
      (stExample, [errOut 1 targetNotFoundMsg]) ∧
    changeRoomHandler stExample 1 0 "bad room" =
      (stExample, [errOut 1 invalidRoomMsg]) :=
  ⟨(c8_validation_failures_pure stExample 2 0 rfl).1 "ab cd" "general" none
     (by decide),
   (c8_validation_failures_pure stExample 2 0 rfl).2.1 "bob" "bad room" none
     (by decide) (by decide),
   (c8_validation_failures_pure stExample 2 0 rfl).2.2.1 "ALICE" "general"
     none ⟨"Alice", "general", 1, none, 0⟩ (by decide) (by decide) (by decide),
   (c8_validation_failures_pure stExample 1 0 rfl).2.2.2.1 (JsVal.str "   ")
     ⟨"Alice", "general", 1, none, 0⟩ rfl (by decide),
   (c8_validation_failures_pure stExample 1 0 rfl).2.2.2.2.1 "Bob"
     (JsVal.str "") ⟨"Alice", "general", 1, none, 0⟩ rfl (by decide),
   (c8_validation_failures_pure stExample 1 0 rfl).2.2.2.2.2.1 "Bob"
     (JsVal.str "hey") "hey" ⟨"Alice", "general", 1, none, 0⟩ rfl (by decide)
     (by decide) (by decide),
   (c8_validation_failures_pure stExample 1 0 rfl).2.2.2.2.2.2 "bad room"
     ⟨"Alice", "general", 1, none, 0⟩ rfl (by decide)⟩

theorem pushCap_getLast (h : List Msg) (m : Msg) :
    (pushCap h m).getLast? = some m := by
  simp only [pushCap, MAX_MESSAGE_HISTORY]
  split
  · next hgt =>
    have hlen : 1 ≤ h.length := by
      simp only [List.length_append, List.length_cons, List.length_nil] at hgt
      omega
    rw [List.drop_append_of_le_length hlen]
    rw [List.getLast?_append_cons]
    rfl
  · rw [List.getLast?_append_cons]
    rfl

/-- **C9** (confirmed).  A bridge `emit_to_room` control message ensures a
room-tracking entry exists for the named room and fans the event out to
that room; when the event field is the canonical `receive_message` kind it
appends exactly one entry — the message's `data` — to that room's history
buffer (via `addToMessageHistory`, whose FIFO cap applies), and for any
other event value the history map is unchanged. -/
theorem c9_bridge_room_emit (st : ServerState) (room event : String)
    (data : Msg) :
    hasKey room (handleLaravelRoomEmit st room event data).1.rooms = true ∧
    (handleLaravelRoomEmit st room event data).2 =
      [Output.toRoomAll room event (Payload.dataP data)] ∧
    (event = "receive_message" →
      (handleLaravelRoomEmit st room event data).1.messageHistory =
        addToMessageHistory st.messageHistory room data) ∧
    (event = "receive_message" →
      getMessageHistory
        (handleLaravelRoomEmit st room event data).1.messageHistory room =
        pushCap (getMessageHistory st.messageHistory room) data ∧
      (getMessageHistory
        (handleLaravelRoomEmit st room event data).1.messageHistory
          room).getLast? = some data) ∧
    (event ≠ "receive_message" →
      (handleLaravelRoomEmit st room event data).1.messageHistory =
        st.messageHistory) := by
  refine ⟨?_, ?_, ?_, ?_, ?_⟩
  · by_cases h : hasKey room st.rooms = true
    · simp [handleLaravelRoomEmit, h]
    · simp only [Bool.not_eq_true, hasKey] at h
      simp [handleLaravelRoomEmit, hasKey, h, lookupKey_setKey_self]
  · simp [handleLaravelRoomEmit]
  · intro he
    simp [handleLaravelRoomEmit, he]
  · intro he
    constructor
    · simp [handleLaravelRoomEmit, he, addToMessageHistory,
        getMessageHistory, lookupKey_setKey_self]
    · simp [handleLaravelRoomEmit, he, addToMessageHistory,
        getMessageHistory, lookupKey_setKey_self, pushCap_getLast]
  · intro he
    simp [handleLaravelRoomEmit, he]

/-- Witness for C9 at concrete inputs, covering both the
`receive_message` and the other-event case. -/
theorem c9_bridge_room_emit_witness :
    hasKey "r1"
      (handleLaravelRoomEmit initState "r1" "receive_message"
        (Msg.bridge "d")).1.rooms = true ∧
    (handleLaravelRoomEmit initState "r1" "receive_message"
        (Msg.bridge "d")).1.messageHistory =
      addToMessageHistory initState.messageHistory "r1" (Msg.bridge "d") ∧
    (handleLaravelRoomEmit initState "r1" "other_event"
        (Msg.bridge "d")).1.messageHistory = initState.messageHistory :=
  ⟨(c9_bridge_room_emit initState "r1" "receive_message" (Msg.bridge "d")).1,
   (c9_bridge_room_emit initState "r1" "receive_message"
      (Msg.bridge "d")).2.2.1 rfl,
   (c9_bridge_room_emit initState "r1" "other_event"
      (Msg.bridge "d")).2.2.2.2 (by decide)⟩

/-- **C6** (confirmed).  A pending deferred history purge for `room`, when
it fires, re-checks the Room Registry: if the room entry is present again
(the room was recreated within the grace window) the purge is a no-op on
every registry — in particular the room's prior history is preserved —
and only when the room entry is still absent does it delete the room's
history buffer. -/
theorem c6_purge_rechecks_room (st : ServerState) (room : String)
    (hp : st.pendingPurges.contains room = true) :
    (hasKey room st.rooms = true →
      (stepOp st (Op.firePurge room)).1 =
        { st with pendingPurges := st.pendingPurges.erase room }) ∧
    (hasKey room st.rooms = false →
      (stepOp st (Op.firePurge room)).1 =
        { st with pendingPurges := st.pendingPurges.erase room,
                  messageHistory := eraseKey room st.messageHistory }) := by
  have hp' : room ∈ st.pendingPurges := by simpa using hp
  constructor
  · intro h
    simp [stepOp, hp', h]
  · intro h
    simp [stepOp, hp', h]

/-- Witness for C6: with the purge for `r1` pending, firing it while `r1`
is registered again keeps the history; firing it while `r1` is absent
deletes the history entry. -/
theorem c6_purge_rechecks_room_witness :
    (stepOp
      { users := [], rooms := [("r1", [2])],
        messageHistory := [("r1", [Msg.bridge "m"])],
        laravelSockets := [], pendingPurges := ["r1"] }
      (Op.firePurge "r1")).1 =
      { users := [], rooms := [("r1", [2])],
        messageHistory := [("r1", [Msg.bridge "m"])],
        laravelSockets := [], pendingPurges := [] } ∧
    (stepOp
      { users := [], rooms := [],
        messageHistory := [("r1", [Msg.bridge "m"])],
        laravelSockets := [], pendingPurges := ["r1"] }
      (Op.firePurge "r1")).1 =
      { users := [], rooms := [], messageHistory := [],
        laravelSockets := [], pendingPurges := [] } :=
  ⟨(c6_purge_rechecks_room
      { users := [], rooms := [("r1", [2])],
        messageHistory := [("r1", [Msg.bridge "m"])],
        laravelSockets := [], pendingPurges := ["r1"] } "r1" rfl).1 rfl,
   (c6_purge_rechecks_room
      { users := [], rooms := [],
        messageHistory := [("r1", [Msg.bridge "m"])],
        laravelSockets := [], pendingPurges := ["r1"] } "r1" rfl).2 rfl⟩

theorem onRawData_flag (cs : ConnState) (f : String) :
    (onRawData cs f).conn.isLaravelClient =
      (cs.isLaravelClient || (jsTrim f == "LARAVEL_CLIENT")) := by
  simp only [onRawData]
  by_cases h : jsTrim f = "LARAVEL_CLIENT"
  · simp [h]
  · by_cases hl : cs.isLaravelClient = true
    · simp [h, hl]
    · simp only [Bool.not_eq_true] at hl
      simp [h, hl]

theorem processFrames_flag (frames : List String) :
    ∀ cs : ConnState,
      (processFrames cs frames).isLaravelClient =
        (cs.isLaravelClient ||
          frames.any (fun f => jsTrim f == "LARAVEL_CLIENT")) := by
  induction frames with
  | nil => intro cs; simp [processFrames]
  | cons f t ih =>
    intro cs
    have hstep : processFrames cs (f :: t) =
        processFrames (onRawData cs f).conn t := rfl
    rw [hstep, ih, onRawData_flag]
    simp [Bool.or_assoc]

/-- **C3** (corrected).  The code never latches a connection as `regular`:
the sentinel check runs on every raw frame, so a connection becomes bridge
exactly when SOME raw frame (after trimming) equals the sentinel
`LARAVEL_CLIENT` — even if its first frame was a non-sentinel one — and
once bridge it stays bridge; the acknowledgment is emitted exactly on
sentinel frames. -/
theorem c3_classification_any_sentinel (frames : List String)
    (cs : ConnState) :
    ((processFrames connInit frames).isLaravelClient = true ↔
      ∃ f ∈ frames, jsTrim f = "LARAVEL_CLIENT") ∧
    ((processFrames cs frames).isLaravelClient =
      (cs.isLaravelClient ||
        frames.any (fun f => jsTrim f == "LARAVEL_CLIENT"))) ∧
    (∀ f, (onRawData cs f).ackSent = (jsTrim f == "LARAVEL_CLIENT")) := by
  refine ⟨?_, processFrames_flag frames cs, ?_⟩
  · rw [processFrames_flag]
    simp [connInit, List.any_eq_true]
  · intro f
    simp only [onRawData]
    by_cases h : jsTrim f = "LARAVEL_CLIENT"
    · simp [h]
    · by_cases hl : cs.isLaravelClient = true
      · simp [h, hl]
      · simp only [Bool.not_eq_true] at hl
        simp [h, hl]

/-- Counterexample for C3 as stated: the first frame `hello` is not the
sentinel, yet a later sentinel frame still reclassifies the connection as
bridge — the claim says this can never happen. -/
theorem c3_counterexample_late_sentinel :
    (jsTrim "hello" == "LARAVEL_CLIENT") = false ∧
    (processFrames connInit ["hello", "LARAVEL_CLIENT"]).isLaravelClient =
      true := by
  decide

-- Infrastructure for the reachable-state invariants (C1, C2, C5).

theorem lookupKey_mem_values [DecidableEq κ] {k : κ} {v : α}
    {l : List (κ × α)} (h : lookupKey k l = some v) :
    v ∈ l.map (fun p => p.2) := by
  induction l with
  | nil => simp [lookupKey] at h
  | cons p t ih =>
    obtain ⟨a, b⟩ := p
    by_cases hak : a = k
    · simp [lookupKey, hak] at h
      simp [h]
    · simp only [lookupKey, hak, if_false] at h
      exact List.mem_cons_of_mem _ (ih h)

/-- The Presence-Registry uniqueness invariant: the lowercased usernames
of all currently stored User records are pairwise distinct. -/
abbrev UsersNodup (st : ServerState) : Prop :=
  (st.users.map (fun p => lowercase p.2.username)).Nodup

/-- The Room-Registry occupancy invariant: every room entry has a
non-empty member set. -/
abbrev RoomsNonempty (st : ServerState) : Prop :=
  ∀ r ms, lookupKey r st.rooms = some ms → ms ≠ []

theorem not_mem_lowNames_erase (l : List (Nat × User)) (c : Nat) (u : User)
    (hnd : (l.map (fun p => lowercase p.2.username)).Nodup)
    (hl : lookupKey c l = some u) :
    lowercase u.username ∉
      (eraseKey c l).map (fun p => lowercase p.2.username) := by
  induction l with
  | nil => simp [lookupKey] at hl
  | cons p t ih =>
    obtain ⟨a, b⟩ := p
    rw [List.map_cons, List.nodup_cons] at hnd
    obtain ⟨hb, hndt⟩ := hnd
    by_cases hac : a = c
    · have hbu : b = u := by simpa [lookupKey, hac] using hl
      subst hbu
      have he : eraseKey c ((a, b) :: t) = eraseKey c t := by
        simp [eraseKey, List.filter_cons, hac]
      rw [he]
      intro hmem
      exact hb (((eraseKey_sublist c t).map _).subset hmem)
    · have he : eraseKey c ((a, b) :: t) = (a, b) :: eraseKey c t := by
        simp [eraseKey, List.filter_cons, hac]
      have hlt : lookupKey c t = some u := by
        simpa [lookupKey, hac] using hl
      have hmemt : u ∈ t.map (fun p => p.2) := lookupKey_mem_values hlt
      have hlowt : lowercase u.username ∈
          t.map (fun p => lowercase p.2.username) := by
        obtain ⟨q, hq, hqe⟩ := List.mem_map.1 hmemt
        exact List.mem_map.2 ⟨q, hq, by rw [hqe]⟩
      rw [he, List.map_cons]
      intro hmem
      rcases List.mem_cons.1 hmem with heq | hmem'
      · exact hb (heq ▸ hlowt)
      · exact (ih hndt hlt) hmem'

theorem usersNodup_setKey_fresh (l : List (Nat × User)) (c : Nat) (u : User)
    (hnd : (l.map (fun p => lowercase p.2.username)).Nodup)
    (hfree : ∀ w ∈ l.map (fun p => p.2),
      ¬(lowercase w.username == lowercase u.username) = true) :
    ((setKey c u l).map (fun p => lowercase p.2.username)).Nodup := by
  rw [setKey, List.map_cons, List.nodup_cons]
  constructor
  · intro hmem
    obtain ⟨p, hp, hpe⟩ := List.mem_map.1 hmem
    have hpl : p ∈ l := (eraseKey_sublist c l).subset hp
    have hfp := hfree p.2 (List.mem_map.2 ⟨p, hpl, rfl⟩)
    apply hfp
    rw [beq_iff_eq, hpe]
  · exact List.Nodup.sublist ((eraseKey_sublist c l).map _) hnd

theorem usersNodup_setKey_same_name (l : List (Nat × User)) (c : Nat)
    (u u' : User)
    (hnd : (l.map (fun p => lowercase p.2.username)).Nodup)
    (hl : lookupKey c l = some u) (hname : u'.username = u.username) :
    ((setKey c u' l).map (fun p => lowercase p.2.username)).Nodup := by
  rw [setKey, List.map_cons, List.nodup_cons]
  refine ⟨?_, List.Nodup.sublist ((eraseKey_sublist c l).map _) hnd⟩
  rw [hname]
  exact not_mem_lowNames_erase l c u hnd hl

theorem addMem_ne_nil (c : Nat) (s : List Nat) : addMem c s ≠ [] := by
  unfold addMem
  split
  · next hc =>
    intro he
    subst he
    simp at hc
  · simp

theorem length_ne_zero_ne_nil {s : List Nat} (h : ¬s.length = 0) :
    s ≠ [] := by
  intro he
  subst he
  simp at h

theorem roomsNonempty_leaveRoom (rooms : List (String × List Nat))
    (pending : List String) (room : String) (c : Nat)
    (h : ∀ r ms, lookupKey r rooms = some ms → ms ≠ []) :
    ∀ r ms, lookupKey r (leaveRoom rooms pending room c).1 = some ms →
      ms ≠ [] := by
  intro r ms hm
  unfold leaveRoom at hm
  cases hlr : lookupKey room rooms with
  | none =>
    rw [hlr] at hm
    exact h r ms hm
  | some ms0 =>
    rw [hlr] at hm
    dsimp only at hm
    by_cases hz : (removeMem c ms0).length = 0
    · rw [if_pos hz] at hm
      dsimp only at hm
      rw [lookupKey_eraseKey] at hm
      by_cases hr : r = room
      · rw [if_pos hr] at hm
        exact absurd hm (by simp)
      · rw [if_neg hr] at hm
        exact h r ms hm
    · rw [if_neg hz] at hm
      dsimp only at hm
      rw [lookupKey_setKey] at hm
      by_cases hr : r = room
      · rw [if_pos hr] at hm
        have hms := Option.some.inj hm
        rw [← hms]
        exact length_ne_zero_ne_nil hz
      · rw [if_neg hr] at hm
        exact h r ms hm

theorem usersNodup_step (st : ServerState) (op : Op) (h : UsersNodup st) :
    UsersNodup (execOp st op) := by
  cases op with
  | join c now username room userId =>
    simp only [execOp, stepOp, joinHandler]
    split
    · exact h
    split
    · exact h
    split
    · exact h
    split
    · exact h
    · next heq =>
      rw [findUserByName] at heq
      have hfree := List.find?_eq_none.mp heq
      exact usersNodup_setKey_fresh st.users c ⟨username, room, c, userId, now⟩
        h hfree
  | sendMessage c now content =>
    simp only [execOp, stepOp, sendMessageHandler]
    split
    · exact h
    split
    · exact h
    · split
      · exact h
      split
      · exact h
      · exact h
  | sendPrivate c now target content =>
    simp only [execOp, stepOp, sendPrivateMessageHandler]
    split
    · exact h
    split
    · exact h
    · split
      · exact h
      split
      · exact h
      split
      · exact h
      · exact h
  | typing c isTyping =>
    simp only [execOp, stepOp, typingHandler]
    split
    · exact h
    split
    · exact h
    · exact h
  | changeRoom c now newRoom =>
    simp only [execOp, stepOp, changeRoomHandler]
    split
    · exact h
    split
    · exact h
    · next user heq =>
      split
      · exact h
      · exact usersNodup_setKey_same_name st.users c user _ h heq rfl
  | getRooms c =>
    simp only [execOp, stepOp, getRoomsHandler]
    split
    · exact h
    · exact h
  | getRoomUsers c room =>
    simp only [execOp, stepOp, getRoomUsersHandler]
    split
    · exact h
    · exact h
  | disconnect c now =>
    simp only [execOp, stepOp, disconnectHandler]
    split
    · exact h
    split
    · exact h
    · exact List.Nodup.sublist ((eraseKey_sublist c st.users).map _) h
  | classifyLaravel c now =>
    exact h
  | bridgeMsg c now m =>
    simp only [execOp, stepOp]
    split
    · cases m with
      | emit event data => exact h
      | emitToRoom room event data => exact h
      | roomCreated info newUser => exact h
      | presenceUpdate userId status room => cases room <;> exact h
      | ping => exact h
      | heartbeat => exact h
      | disconnectReq => exact h
      | unknown t => exact h
    · exact h
  | firePurge room =>
    simp only [execOp, stepOp]
    split
    · split
      · exact h
      · exact h
    · exact h

theorem roomsNonempty_step (st : ServerState) (op : Op)
    (hop : op.isBridgeOp = false) (h : RoomsNonempty st) :
    RoomsNonempty (execOp st op) := by
  cases op with
  | join c now username room userId =>
    simp only [execOp, stepOp, joinHandler]
    split
    · exact h
    split
    · exact h
    split
    · exact h
    split
    · exact h
    · intro r ms hm
      rw [lookupKey_setKey] at hm
      by_cases hr : r = room
      · rw [if_pos hr] at hm
        have hms := Option.some.inj hm
        rw [← hms]
        exact addMem_ne_nil _ _
      · rw [if_neg hr] at hm
        by_cases hk : hasKey room st.rooms = true
        · rw [if_pos hk] at hm
          exact h r ms hm
        · rw [if_neg hk] at hm
          rw [lookupKey_setKey, if_neg hr] at hm
          exact h r ms hm
  | sendMessage c now content =>
    simp only [execOp, stepOp, sendMessageHandler]
    split
    · exact h
    split
    · exact h
    · split
      · exact h
      split
      · exact h
      · exact h
  | sendPrivate c now target content =>
    simp only [execOp, stepOp, sendPrivateMessageHandler]
    split
    · exact h
    split
    · exact h
    · split
      · exact h
      split
      · exact h
      split
      · exact h
      · exact h
  | typing c isTyping =>
    simp only [execOp, stepOp, typingHandler]
    split
    · exact h
    split
    · exact h
    · exact h
  | changeRoom c now newRoom =>
    simp only [execOp, stepOp, changeRoomHandler]
    split
    · exact h
    split
    · exact h
    · next user heq =>
      split
      · exact h
      · intro r ms hm
        rw [lookupKey_setKey] at hm
        by_cases hr : r = newRoom
        · rw [if_pos hr] at hm
          have hms := Option.some.inj hm
          rw [← hms]
          exact addMem_ne_nil _ _
        · rw [if_neg hr] at hm
          exact roomsNonempty_leaveRoom st.rooms st.pendingPurges
            user.room c h r ms hm
  | getRooms c =>
    simp only [execOp, stepOp, getRoomsHandler]
    split
    · exact h
    · exact h
  | getRoomUsers c room =>
    simp only [execOp, stepOp, getRoomUsersHandler]
    split
    · exact h
    · exact h
  | disconnect c now =>
    simp only [execOp, stepOp, disconnectHandler]
    split
    · exact h
    split
    · exact h
    · next user heq =>
      exact roomsNonempty_leaveRoom st.rooms st.pendingPurges
        user.room c h
  | classifyLaravel c now =>
    simp [Op.isBridgeOp] at hop
  | bridgeMsg c now m =>
    simp [Op.isBridgeOp] at hop
  | firePurge room =>
    simp only [execOp, stepOp]
    split
    · split
      · exact h
      · exact h
    · exact h

/-- **C1** (corrected).  Restricted to the regular-client operations
(join, send_message, send_private_message, typing, change_room, get_rooms,
get_room_users, disconnect, purge firing), every reachable state satisfies
the occupancy invariant: every Room-Registry entry has a non-empty member
set, i.e. an entry exists only while the room has members (the entry is
deleted immediately when the last member leaves, the history buffer alone
surviving into the grace window).  The bridge operations `emit_to_room`
and `room_created` are excluded because they do create empty-membered
entries (see the counterexample). -/
theorem c1_room_entry_nonempty_without_bridge (ops : List Op)
    (hops : ∀ op ∈ ops, op.isBridgeOp = false) :
    ∀ r ms, lookupKey r (execOps ops).rooms = some ms → ms ≠ [] := by
  have main : ∀ (l : List Op) (st : ServerState),
      (∀ op ∈ l, op.isBridgeOp = false) → RoomsNonempty st →
      RoomsNonempty (l.foldl execOp st) := by
    intro l
    induction l with
    | nil => intro st _ hst; exact hst
    | cons op t ih =>
      intro st hl hst
      rw [List.foldl_cons]
      exact ih _ (fun o ho => hl o (List.mem_cons_of_mem _ ho))
        (roomsNonempty_step st op (hl op (List.mem_cons_self _ _)) hst)
  exact main ops initState hops
    (by intro r ms hm; simp [initState, lookupKey] at hm)

/-- Counterexample for C1 as stated: a bridge `emit_to_room` control
message on a classified bridge connection creates (and the registry then
retains) a room entry for `r1` whose member set is empty, at a reachable
state. -/
theorem c1_counterexample_bridge_empty_room :
    lookupKey "r1"
      (execOps [Op.classifyLaravel 9 0,
        Op.bridgeMsg 9 1
          (ControlMsg.emitToRoom "r1" "receive_message"
            (Msg.bridge "payload"))]).rooms = some [] := by
  decide

/-- Witness for C1: a bridge-free operation sequence reaching a state
whose only room entry has the joining connection as member. -/
theorem c1_room_entry_nonempty_without_bridge_witness :
    lookupKey "r1"
      (execOps [Op.join 1 0 "A" "r1" none]).rooms = some [1] ∧
    ([1] : List Nat) ≠ [] :=
  ⟨by decide,
   c1_room_entry_nonempty_without_bridge [Op.join 1 0 "A" "r1" none]
     (by decide) "r1" [1] (by decide)⟩

/-- The Room-Registry/Presence-Registry consistency check of spec
invariant 3: every member connection id of every room entry maps to a
User record whose `room` field is that room's name. -/
def roomsUsersConsistent (st : ServerState) : Bool :=
  st.rooms.all (fun p => p.2.all (fun c =>
    match lookupKey c st.users with
    | some u => u.room == p.1
    | none => false))

/-- **C2** (code bug).  A connection that issues a second successful
`join` (with a fresh username and a different room) is never removed from
its first room's member set: after `join(1,A,r1)` then `join(1,B,r2)`,
room `r1` still lists connection 1 as a member while the User record of
connection 1 has `room = r2`, violating the rooms/users consistency the
claim (and spec invariant 3) states. -/
theorem c2_double_join_breaks_consistency :
    roomsUsersConsistent
      (execOps [Op.join 1 0 "A" "r1" none, Op.join 1 1 "B" "r2" none]) =
      false ∧
    lookupKey "r1"
      (execOps [Op.join 1 0 "A" "r1" none, Op.join 1 1 "B" "r2" none]).rooms =
      some [1] ∧
    (lookupKey 1
      (execOps [Op.join 1 0 "A" "r1" none,
        Op.join 1 1 "B" "r2" none]).users).map User.room = some "r2" := by
  refine ⟨by decide, by decide, by decide⟩

/-- **C5** (confirmed).  At every reachable state the lowercased usernames
of the stored User records are pairwise distinct, and a `join` whose
(valid) username case-insensitively matches an existing connected user's
username fails with the duplicate-username error, mutating nothing and
creating no User record. -/
theorem c5_usernames_case_insensitively_unique (ops : List Op) :
    ((execOps ops).users.map (fun p => lowercase p.2.username)).Nodup ∧
    (∀ (st : ServerState) (c now : Nat) (username room : String)
        (userId : Option Nat) (u : User),
      st.laravelSockets.contains c = false →
      isValidUsername username = true →
      isValidRoomName room = true →
      findUserByName st.users username = some u →
      joinHandler st c now username room userId =
        (st, [errOut c dupUsernameMsg])) := by
  constructor
  · have main : ∀ (l : List Op) (st : ServerState),
        UsersNodup st → UsersNodup (l.foldl execOp st) := by
      intro l
      induction l with
      | nil => intro st hst; exact hst
      | cons op t ih =>
        intro st hst
        rw [List.foldl_cons]
        exact ih _ (usersNodup_step st op hst)
    exact main ops initState (by simp [initState, UsersNodup])
  · intro st c now username room userId u hl h1 h2 h3
    simp [joinHandler, not_mem_of_contains_false hl, h1, h2, h3]

/-- Witness for C5: reach a one-user state, then a join with the
uppercased duplicate of an existing username fails. -/
theorem c5_usernames_case_insensitively_unique_witness :
    ((execOps [Op.join 1 0 "Alice" "general" none]).users.map
      (fun p => lowercase p.2.username)).Nodup ∧
    joinHandler stExample 2 5 "ALICE" "general" none =
      (stExample, [errOut 2 dupUsernameMsg]) :=
  ⟨(c5_usernames_case_insensitively_unique
      [Op.join 1 0 "Alice" "general" none]).1,
   (c5_usernames_case_insensitively_unique []).2 stExample 2 5 "ALICE"
     "general" none ⟨"Alice", "general", 1, none, 0⟩ rfl (by decide)
     (by decide) (by decide)⟩

end NodeMessenger
